import Mathlib

/-!
Verification development for the SmartDrive validator.

Each Python source function used by the claims is shallowly embedded as an
executable Lean definition; theorems about those definitions settle the
claims.  Opaque byte strings (addresses, signatures, canonical-JSON payloads,
uuids) are modelled as `String`; raw byte sequences as `List Nat`; stakes as
`Nat` (spec data model: integer base units); the float arithmetic of
`calculate_storage_capacity` is modelled exactly over `ℚ`.
-/

namespace SmartDrive

/-! Section: Constants (src/smartdrive/utils.py, src/smartdrive/validator/api/store_api.py) -/

def INITIAL_STORAGE : ℚ := 50 * 1024 * 1024
def MAXIMUM_STORAGE : ℚ := 2 * 1024 * 1024 * 1024
/-- Embeds `0.1 * 1024 * 1024` computed exactly (the Python constant is the
nearest double to this rational). -/
def ADDITIONAL_STORAGE_PER_COMAI : ℚ := (1 / 10) * 1024 * 1024
def MINIMUM_STAKE : ℚ := 1

def MIN_MINERS_FOR_FILE : Nat := 2
def MIN_REPLICATION_FOR_FILE : Nat := 2
def MAX_MINERS_FOR_FILE : Nat := 100
def MAX_ENCODED_RANGE : Nat := 50

/-! Section: `calculate_storage_capacity` (src/smartdrive/utils.py, lines 45-66)

The Python function computes over floats and applies `int(...)` (truncation
toward zero; the value is nonnegative, so it is the floor) to
`min(total_storage_bytes, MAXIMUM_STORAGE)`.  We embed the arithmetic
exactly over `ℚ`. -/

def calculate_storage_capacity (stake : ℚ) : ℤ :=
  if stake < MINIMUM_STAKE then 0
  else
    let additional_comai := stake - MINIMUM_STAKE
    let total_storage_bytes :=
      if 0 < additional_comai then
        INITIAL_STORAGE + additional_comai * ADDITIONAL_STORAGE_PER_COMAI
      else INITIAL_STORAGE
    ⌊min total_storage_bytes MAXIMUM_STORAGE⌋

/-! Section: Audit window sampling (src/smartdrive/validator/api/store_api.py, lines 219-231)

`sub_chunk_start = random.randint(0, max(0, len(file) - MAX_ENCODED_RANGE))`
(`randint` is inclusive on both ends), `sub_chunk_end = min(sub_chunk_start +
MAX_ENCODED_RANGE, len(file))`, `sub_chunk_encoded = file[start:end].hex()`.
The random draw is modelled by quantifying over every admissible `start`. -/

structure ChunkEvent where
  uuid : String
  chunk_index : Nat
  sub_chunk_start : Nat
  sub_chunk_end : Nat
  sub_chunk_encoded : String
  deriving Repr, DecidableEq

/-- Python's `bytes.hex()`: two lowercase hex digits per byte. -/
def bytesHex (bs : List Nat) : String :=
  String.mk (bs.flatMap fun b => [Nat.digitChar (b / 16 % 16), Nat.digitChar (b % 16)])

/-- Builds the `ChunkEvent` of store_api.py lines 224-230 for a given shard
and a given draw of `sub_chunk_start`. -/
def mkChunkEvent (chunk_uuid : String) (chunk_index : Nat) (file : List Nat)
    (start : Nat) : ChunkEvent :=
  let sub_chunk_end := min (start + MAX_ENCODED_RANGE) file.length
  { uuid := chunk_uuid
    chunk_index := chunk_index
    sub_chunk_start := start
    sub_chunk_end := sub_chunk_end
    sub_chunk_encoded := bytesHex ((file.drop start).take (sub_chunk_end - start)) }

/-! Section: Proposer election (src/smartdrive/validator/validator.py lines 131-151,
src/smartdrive/commune/utils.py lines 8-9)

`TRUTHFUL_STAKE_AMOUNT` lives in `validator/constants.py` (not in scope); it
is the parameter `S` below.  Stakes are integer base units (spec §3), so
Python's `v.stake or 0` coincides with `v.stake`. -/

structure ModuleInfo where
  ss58_address : String
  stake : Nat
  deriving Repr, DecidableEq

/-- Embeds `filter(lambda validator: validator.stake > TRUTHFUL_STAKE_AMOUNT,
active_validators)` — note the strict inequality. -/
def filter_truthful_validators (S : Nat) (active_validators : List ModuleInfo) :
    List ModuleInfo :=
  active_validators.filter (fun validator => S < validator.stake)

/-- Python's `max(acc :: l, key=k)` scan: the accumulator is replaced only on a
strictly greater key, so the first maximal element wins. -/
def pythonMaxByAux (k : ModuleInfo → Nat) (acc : ModuleInfo) :
    List ModuleInfo → ModuleInfo
  | [] => acc
  | v :: rest => pythonMaxByAux k (if k acc < k v then v else acc) rest

/-- Python's `max(l, key=k)`; `none` on the empty list (Python raises). -/
def pythonMaxBy (k : ModuleInfo → Nat) : List ModuleInfo → Option ModuleInfo
  | [] => none
  | v :: rest => some (pythonMaxByAux k v rest)

/-- The candidate pool of `Validator.create_blocks`: truthful active
validators (strict filter), then the own validator appended when the oracle
lists it with stake `≥ S`, falling back to the oracle's full validator list
when that is empty (`truthful_validators or all_validators`). -/
def electionPool (S : Nat) (active_validators all_validators : List ModuleInfo)
    (self_address : String) : List ModuleInfo :=
  let truthful0 := filter_truthful_validators S active_validators
  let truthful :=
    match all_validators.find? (fun v => v.ss58_address == self_address) with
    | some own => if S ≤ own.stake then truthful0 ++ [own] else truthful0
    | none => truthful0
  if truthful.isEmpty then all_validators else truthful

/-- Embeds the election of `Validator.create_blocks`:
`max(truthful_validators or all_validators, key=lambda v: v.stake or 0)`. -/
def electProposer (S : Nat) (active_validators all_validators : List ModuleInfo)
    (self_address : String) : Option ModuleInfo :=
  pythonMaxBy (fun v => v.stake) (electionPool S active_validators all_validators self_address)

/-- Lexicographic comparison of strings by Unicode code point. -/
def strLt : List Char → List Char → Bool
  | [], [] => false
  | [], _ :: _ => true
  | _ :: _, [] => false
  | a :: as, b :: bs =>
    if a.toNat < b.toNat then true
    else if b.toNat < a.toNat then false
    else strLt as bs

/-- Modelled from the claim wording, for comparison with `electProposer`
(refinement check): over `T = get_active_validators() ∪ {self}` keep the
members with stake `≥ S`, fall back to the full `T` when empty, and select
the maximal stake breaking ties by lexicographically smallest address. -/
def electProposerSpec (S : Nat) (T : List ModuleInfo) : Option ModuleInfo :=
  let kept := T.filter (fun v => S ≤ v.stake)
  let pool := if kept.isEmpty then T else kept
  pool.foldl
    (fun acc v =>
      match acc with
      | none => some v
      | some a =>
        if a.stake < v.stake then some v
        else if v.stake < a.stake then some a
        else if strLt v.ss58_address.data a.ss58_address.data then some v
        else some a)
    none

/-! Helper lemmas about the Python `max` scan. -/

theorem pythonMaxByAux_spec (k : ModuleInfo → Nat) :
    ∀ (l : List ModuleInfo) (acc : ModuleInfo),
      (pythonMaxByAux k acc l = acc ∨ pythonMaxByAux k acc l ∈ l) ∧
      k acc ≤ k (pythonMaxByAux k acc l) ∧
      ∀ v ∈ l, k v ≤ k (pythonMaxByAux k acc l) := by
  intro l
  induction l with
  | nil => intro acc; simp [pythonMaxByAux]
  | cons x xs ih =>
    intro acc
    simp only [pythonMaxByAux]
    by_cases h : k acc < k x
    · rw [if_pos h]
      obtain ⟨hmem, hacc, hall⟩ := ih x
      refine ⟨?_, le_trans (le_of_lt h) hacc, ?_⟩
      · rcases hmem with h1 | h1
        · exact Or.inr (by simp [h1])
        · exact Or.inr (List.mem_cons_of_mem _ h1)
      · intro v hv
        rcases List.mem_cons.mp hv with rfl | hv'
        · exact hacc
        · exact hall v hv'
    · rw [if_neg h]
      obtain ⟨hmem, hacc, hall⟩ := ih acc
      refine ⟨?_, hacc, ?_⟩
      · rcases hmem with h1 | h1
        · exact Or.inl h1
        · exact Or.inr (List.mem_cons_of_mem _ h1)
      · intro v hv
        rcases List.mem_cons.mp hv with rfl | hv'
        · exact le_trans (le_of_not_lt h) hacc
        · exact hall v hv'

theorem pythonMaxBy_spec (k : ModuleInfo → Nat) (l : List ModuleInfo) (h : l ≠ []) :
    ∃ p, pythonMaxBy k l = some p ∧ p ∈ l ∧ ∀ v ∈ l, k v ≤ k p := by
  cases l with
  | nil => exact absurd rfl h
  | cons x xs =>
    obtain ⟨hmem, hacc, hall⟩ := pythonMaxByAux_spec k xs x
    refine ⟨pythonMaxByAux k x xs, rfl, ?_, ?_⟩
    · rcases hmem with h1 | h1
      · simp [h1]
      · exact List.mem_cons_of_mem _ h1
    · intro v hv
      rcases List.mem_cons.mp hv with rfl | hv'
      · exact hacc
      · exact hall v hv'

/-- A `find?` over permuted lists agrees when the sought element is unique. -/
theorem find_eq_of_perm_of_unique (p : ModuleInfo → Bool) (l₁ l₂ : List ModuleInfo)
    (hperm : l₁.Perm l₂)
    (huniq : ∀ u ∈ l₁, ∀ v ∈ l₁, p u = true → p v = true → u = v) :
    l₁.find? p = l₂.find? p := by
  by_cases hex : ∃ x ∈ l₁, p x = true
  · obtain ⟨x, hx, hpx⟩ := hex
    have h₁ : ∃ y, l₁.find? p = some y := by
      rcases hfind : l₁.find? p with _ | y
      · exact absurd hpx (by simpa using List.find?_eq_none.mp hfind x hx)
      · exact ⟨y, rfl⟩
    have h₂ : ∃ y, l₂.find? p = some y := by
      rcases hfind : l₂.find? p with _ | y
      · exact absurd hpx (by simpa using List.find?_eq_none.mp hfind x (hperm.mem_iff.mp hx))
      · exact ⟨y, rfl⟩
    obtain ⟨y₁, hy₁⟩ := h₁
    obtain ⟨y₂, hy₂⟩ := h₂
    rw [hy₁, hy₂]
    have m₁ := List.mem_of_find?_eq_some hy₁
    have m₂ := hperm.mem_iff.mpr (List.mem_of_find?_eq_some hy₂)
    exact congrArg some
      (huniq y₁ m₁ y₂ m₂ (List.find?_some hy₁) (List.find?_some hy₂))
  · push_neg at hex
    have h₁ : l₁.find? p = none := List.find?_eq_none.mpr (by
      intro x hx
      simpa using hex x hx)
    have h₂ : l₂.find? p = none := List.find?_eq_none.mpr (by
      intro x hx
      simpa using hex x (hperm.mem_iff.mpr hx))
    rw [h₁, h₂]

/-- Permutation preserves `isEmpty`. -/
theorem perm_isEmpty {l₁ l₂ : List ModuleInfo} (h : l₁.Perm l₂) :
    l₁.isEmpty = l₂.isEmpty := by
  have := h.length_eq
  cases l₁ <;> cases l₂ <;> simp_all

/-- The empty-fallback of the election respects permutations of both lists. -/
theorem ite_pool_perm {t₁ t₂ a₁ a₂ : List ModuleInfo}
    (ht : t₁.Perm t₂) (ha : a₁.Perm a₂) :
    (if t₁.isEmpty then a₁ else t₁).Perm (if t₂.isEmpty then a₂ else t₂) := by
  have he : t₁.isEmpty = t₂.isEmpty := perm_isEmpty ht
  cases h : t₂.isEmpty
  · rw [he, h]
    simpa using ht
  · rw [he, h]
    simpa using ha

/-- Permuting the oracle snapshot permutes the candidate pool, provided
module addresses are unique in the oracle list. -/
theorem electionPool_perm (S : Nat) (active₁ active₂ all₁ all₂ : List ModuleInfo)
    (self_address : String)
    (hact : active₁.Perm active₂) (hall : all₁.Perm all₂)
    (huniq : ∀ u ∈ all₁, ∀ v ∈ all₁, u.ss58_address = v.ss58_address → u = v) :
    (electionPool S active₁ all₁ self_address).Perm
      (electionPool S active₂ all₂ self_address) := by
  have hfind : all₁.find? (fun v => v.ss58_address == self_address) =
      all₂.find? (fun v => v.ss58_address == self_address) := by
    apply find_eq_of_perm_of_unique _ _ _ hall
    intro u hu v hv hpu hpv
    exact huniq u hu v hv (by
      have h1 : u.ss58_address = self_address := by simpa using hpu
      have h2 : v.ss58_address = self_address := by simpa using hpv
      rw [h1, h2])
  have hfilter : (filter_truthful_validators S active₁).Perm
      (filter_truthful_validators S active₂) := hact.filter _
  unfold electionPool
  rw [← hfind]
  rcases hE : all₁.find? (fun v => v.ss58_address == self_address) with _ | own <;>
    simp only [hE]
  · exact ite_pool_perm hfilter hall
  · by_cases hstake : S ≤ own.stake
    · simp only [hstake, if_true]
      exact ite_pool_perm (hfilter.append (List.Perm.refl _)) hall
    · simp only [hstake, if_false]
      exact ite_pool_perm hfilter hall

/-! Section: Shard splitting (src/smartdrive/validator/api/store_api.py lines 205-211)

`num_chunks = min(len(miners), MAX_MINERS_FOR_FILE)`;
`chunk_size = max(1, len(file_bytes) // num_chunks)`;
`remainder = len(file_bytes) % num_chunks`;
`chunks = [file_bytes[i*chunk_size:(i+1)*chunk_size] for i in range(num_chunks)]`;
`if remainder: chunks[-1] += file_bytes[-remainder:]`. -/

/-- Embeds `chunks[-1] += extra` (append to the last element of the list). -/
def appendToLast (extra : List Nat) : List (List Nat) → List (List Nat)
  | [] => []
  | [c] => [c ++ extra]
  | c :: cs => c :: appendToLast extra cs

def splitChunks (file : List Nat) (num_chunks : Nat) : List (List Nat) :=
  let chunk_size := max 1 (file.length / num_chunks)
  let remainder := file.length % num_chunks
  let chunks :=
    (List.range num_chunks).map
      (fun i => (file.drop (i * chunk_size)).take chunk_size)
  if remainder ≠ 0 then appendToLast (file.drop (file.length - remainder)) chunks
  else chunks

theorem appendToLast_concat (e : List Nat) (A : List (List Nat)) (c : List Nat) :
    appendToLast e (A ++ [c]) = A ++ [c ++ e] := by
  induction A with
  | nil => rfl
  | cons d A' ih =>
    cases A' with
    | nil => rfl
    | cons d' ds =>
      show d :: appendToLast e ((d' :: ds) ++ [c]) = d :: ((d' :: ds) ++ [c ++ e])
      rw [ih]

theorem slices_flatten (file : List Nat) (cs : Nat) : ∀ k,
    (((List.range k).map (fun i => (file.drop (i * cs)).take cs)).flatten) =
      file.take (k * cs) := by
  intro k
  induction k with
  | zero => simp
  | succ k ih =>
    rw [List.range_succ, List.map_append, List.flatten_append, ih]
    simp only [List.map_cons, List.map_nil, List.flatten_cons, List.flatten_nil,
      List.append_nil]
    rw [← List.take_add file (k * cs) cs, Nat.succ_mul]

/-- Closed form of the splitter when the file has at least `num_chunks`
bytes: `num_chunks - 1` shards of exactly `⌊len/num_chunks⌋` bytes followed
by one final shard holding everything that remains. -/
theorem splitChunks_eq (file : List Nat) (n : Nat) (hn : 0 < n)
    (hlen : n ≤ file.length) :
    splitChunks file n =
      (List.range (n - 1)).map
        (fun i => (file.drop (i * (file.length / n))).take (file.length / n))
      ++ [file.drop ((n - 1) * (file.length / n))] := by
  have hcs1 : 1 ≤ file.length / n := (Nat.one_le_div_iff hn).mpr hlen
  have hmax : max 1 (file.length / n) = file.length / n := by omega
  have hdm : n * (file.length / n) + file.length % n = file.length :=
    Nat.div_add_mod file.length n
  have hmul : (n - 1) * (file.length / n) + file.length / n = n * (file.length / n) := by
    cases n with
    | zero => exact absurd hn (by simp)
    | succ k => simp [Nat.succ_mul]
  have hrange : List.range n = List.range (n - 1) ++ [n - 1] := by
    cases n with
    | zero => exact absurd hn (by simp)
    | succ k =>
      show List.range (k + 1) = List.range k ++ [k]
      exact List.range_succ k
  simp only [splitChunks, hmax]
  rw [hrange, List.map_append]
  simp only [List.map_cons, List.map_nil]
  by_cases hr : file.length % n = 0
  · rw [if_neg (by simpa using hr)]
    have hlast : (file.drop ((n - 1) * (file.length / n))).take (file.length / n) =
        file.drop ((n - 1) * (file.length / n)) := by
      apply List.take_of_length_le
      rw [List.length_drop]
      omega
    rw [hlast]
  · rw [if_pos (by simpa using hr)]
    rw [appendToLast_concat]
    have hdrop : file.length - file.length % n = n * (file.length / n) := by omega
    rw [hdrop]
    have hsplit : file.drop (n * (file.length / n)) =
        ((file.drop ((n - 1) * (file.length / n))).drop (file.length / n)) := by
      rw [List.drop_drop, hmul]
    rw [hsplit, List.take_append_drop]

/-! Section: Events, mempool and block ingest
(src/smartdrive/validator/network/node/client.py lines 87-164)

Opaque payloads are `String`s: `event_params`/`input_params` stand for the
canonical-JSON dict of the Python objects, signatures for hex strings.  The
crypto facade `verify_data_signature(data, signature_hex, ss58_address)` is
an opaque boolean operation (spec §4.1) and is therefore a function
parameter `verify`; likewise the canonical encoding of
`{"block_number": ..., "events": ...}` is a parameter `encodeBlock`. -/

structure UserPart where
  user_ss58_address : String
  input_params : String
  input_signed_params : String
  deriving Repr, DecidableEq

structure IngestEvent where
  uuid : String
  validator_ss58_address : String
  event_params : String
  event_signed_params : String
  user : Option UserPart
  deriving Repr, DecidableEq

structure BlockMsg where
  block_number : Nat
  events : List IngestEvent
  proposer_signature : String
  proposer_ss58_address : String
  deriving Repr, DecidableEq

/-- Per-event verification of `process_message` (client.py lines 119-127):
a `UserEvent` must carry a valid user signature over `input_params`, and
every event a valid validator signature over `event_params`. -/
def eventSigOk (verify : String → String → String → Bool) (e : IngestEvent) : Bool :=
  (match e.user with
   | some u => verify u.input_params u.input_signed_params u.user_ss58_address
   | none => true) &&
  verify e.event_params e.event_signed_params e.validator_ss58_address

/-- Embeds `mempool.append(event)` of the `MESSAGE_CODE_EVENT` branch
(client.py line 137): a plain list append, no deduplication. -/
def mempoolAppend (mempool : List IngestEvent) (event : IngestEvent) :
    List IngestEvent :=
  mempool ++ [event]

/-- Embeds `Client.remove_events` (client.py lines 160-164): drop every
mempool entry whose uuid occurs among the given events. -/
def remove_events (events mempool : List IngestEvent) : List IngestEvent :=
  mempool.filter (fun ev => !((events.map (fun e => e.uuid)).contains ev.uuid))

inductive IngestResult where
  /-- envelope signature failed: `InvalidSignatureException` is raised. -/
  | invalidSignature
  /-- proposer signature on the block failed: `return`, nothing applied. -/
  | blockNotVerified
  /-- events applied via `run_process_events`, mempool pruned, and the block
  (with the surviving events) handed to `database.create_block`. -/
  | applied (processed_events : List IngestEvent) (persisted : BlockMsg)
      (mempool : List IngestEvent) (sync_requested : Bool)
  deriving Repr, DecidableEq

/-- Embeds the `MESSAGE_CODE_BLOCK` branch of `Client.process_message`
(client.py lines 101-132).  The code never consults the local last block
number, never emits a `SYNC_REQUEST` (hence `sync_requested := false` on
every applied path), drops an event whose signatures fail, and applies the
rest. -/
def process_message_block (verify : String → String → String → Bool)
    (encodeBlock : Nat → List IngestEvent → String)
    (body_encoded signature_hex sender_ss58_address : String)
    (block : BlockMsg) (mempool : List IngestEvent) : IngestResult :=
  if ¬ verify body_encoded signature_hex sender_ss58_address then .invalidSignature
  else if ¬ verify (encodeBlock block.block_number block.events)
      block.proposer_signature block.proposer_ss58_address then .blockNotVerified
  else
    let processed_events := block.events.filter (eventSigOk verify)
    .applied processed_events { block with events := processed_events }
      (remove_events processed_events mempool) false

/-- Modelled from the spec: §4.2 `append_block(Block)` of the persistence
layer (the `Database` class is not among the sources under review) "fails
if `block_number != last_block_number+1`". -/
def create_block_spec (last_block_number : Nat) (block : BlockMsg) : Option Nat :=
  if block.block_number = last_block_number + 1 then some block.block_number
  else none

/-- Concrete instantiation of the opaque signature facade used for
witnesses and counterexamples: a signature is valid iff it is the signed
data concatenated with the signer's address. -/
def concatSigOk (data signature_hex ss58_address : String) : Bool :=
  signature_hex == data ++ "|" ++ ss58_address

/-- Concrete instantiation of the canonical block encoding used for
witnesses and counterexamples. -/
def encodeBlockConcat (block_number : Nat) (events : List IngestEvent) : String :=
  toString block_number ++ "#" ++ String.join (events.map (fun e => e.uuid))

/-- A well-signed validator event (under `concatSigOk`). -/
def evOkC1 : IngestEvent := ⟨"u1", "V", "p1", "p1|V", none⟩

/-- An event whose validator signature does not verify. -/
def evBadC1 : IngestEvent := ⟨"u2", "V", "p2", "WRONG", none⟩

/-- A block mixing one well-signed and one badly-signed event. -/
def blkMixed : BlockMsg :=
  ⟨2, [evOkC1, evBadC1], encodeBlockConcat 2 [evOkC1, evBadC1] ++ "|P", "P"⟩

/-- A well-signed validator event used for the block-gap scenario. -/
def evGap : IngestEvent := ⟨"u3", "V", "p3", "p3|V", none⟩

/-- A well-signed block numbered 5, arriving when the local tip is 1. -/
def blkGap : BlockMsg := ⟨5, [evGap], encodeBlockConcat 5 [evGap] ++ "|P", "P"⟩

/-- A sample event for the mempool duplication scenario. -/
def evDup : IngestEvent := ⟨"u", "V", "p", "p|V", none⟩

/-! Section: Auth middleware body selection
(src/smartdrive/validator/api/middleware/api_middleware.py lines 113-137)

`verify_data_signature(body, signature, ss58_address)` is checked against a
`body` value chosen from the request as below.  HTTP parsing is out of
scope (spec §1): `jsonParse payload` stands for `await request.json()`
(`none` = `JSONDecodeError`, which yields 401 "Invalid JSON"), `payload`
for the raw body bytes, and an absent-or-empty (falsy) `Content-Type`
header is `none`.  The `parse_qs`/`UnicodeDecodeError` fallback branch is
represented by `form payload`, recording that the verified body derives
from the payload bytes. -/

/-- Substring search: does `p` occur contiguously in the second list? -/
def isInfixOfChars (p : List Char) : List Char → Bool
  | [] => p.isEmpty
  | c :: cs => p.isPrefixOf (c :: cs) || isInfixOfChars p cs

/-- Python's substring containment `pat in s`. -/
def containsSub (s pat : String) : Bool := isInfixOfChars pat.data s.data

inductive BodyVal (α : Type) where
  | empty
  | jsonVal (v : α)
  | invalidJson
  | form (payload : List Nat)
  | qs (query_params : List (String × String))
  deriving Repr, DecidableEq

/-- Embeds the body-selection logic of `APIMiddleware.dispatch`: the value
against which `X-Signature` is verified. -/
def selectBody (α : Type) (jsonParse : List Nat → Option α) (method : String)
    (content_type : Option String) (query_params : List (String × String))
    (payload : List Nat) : BodyVal α :=
  if method == "GET" || method == "DELETE" then .qs query_params
  else
    match content_type with
    | some ct =>
      if containsSub ct "application/json" then
        if payload.isEmpty then .empty
        else
          match jsonParse payload with
          | some v => .jsonVal v
          | none => .invalidJson
      else if !(containsSub ct "application/octet-stream") then .form payload
      else .empty
    | none => .empty

/-! Section: Store placement and rollback
(src/smartdrive/validator/api/store_api.py lines 115-255)

The miner RPC `_store_request` collapses every network/HTTP error to
`None` (spec §4.4); its outcome to a given miner for a given chunk index
is the oracle `answer miner chunk_index`.  `random.shuffle` makes the
per-chunk miner pool an arbitrary order: the oracle `orders chunk_index`
gives that pool in pop order.  `processing_time` (wall clock) is omitted
from `MinerProcess`.  The `random.randint` audit-window draws are the
oracle `draw`, clamped to `randint`'s support exactly as in the code. -/

structure MinerProcess where
  chunk_uuid : Option String
  miner_ss58_address : String
  succeed : Bool
  deriving Repr, DecidableEq

structure StoreState where
  miners_processes : List MinerProcess
  stored_chunks : List (String × Nat × List Nat)
  stored_miners : List (ModuleInfo × String)
  deriving Repr, DecidableEq

/-- Embeds `handle_store_request` (store_api.py lines 142-165): one store
RPC; on success the chunk is recorded in `stored_chunks`/`stored_miners`,
and a `MinerProcess` entry is appended either way. -/
def handle_store_request (answer : ModuleInfo → Nat → Option String)
    (miner : ModuleInfo) (chunk_data : List Nat) (chunk_index : Nat)
    (st : StoreState) : StoreState × Bool :=
  match answer miner chunk_index with
  | some chunk_uuid =>
    ({ miners_processes :=
        st.miners_processes ++ [⟨some chunk_uuid, miner.ss58_address, true⟩],
       stored_chunks := st.stored_chunks ++ [(chunk_uuid, chunk_index, chunk_data)],
       stored_miners := st.stored_miners ++ [(miner, chunk_uuid)] }, true)
  | none =>
    ({ st with miners_processes :=
        st.miners_processes ++ [⟨none, miner.ss58_address, false⟩] }, false)

/-- Embeds `store_chunk_with_redundancy` (store_api.py lines 167-182): one
new miner is popped per wave while the replication quota is unmet and the
pool is non-empty; already-completed failed tasks return `False` again on
re-gather, so the count equals the number of successes so far. -/
def store_chunk_with_redundancy (answer : ModuleInfo → Nat → Option String)
    (chunk_data : List Nat) (chunk_index : Nat) :
    List ModuleInfo → Nat → StoreState → StoreState
  | [], _, st => st
  | miner :: rest, replication_count, st =>
    if MIN_REPLICATION_FOR_FILE ≤ replication_count then st
    else
      let r := handle_store_request answer miner chunk_data chunk_index st
      store_chunk_with_redundancy answer chunk_data chunk_index rest
        (replication_count + (if r.2 then 1 else 0)) r.1

inductive StoreError where
  /-- `HTTPException 400`, raised before the `try` block. -/
  | notEnoughMiners
  /-- `HTTPException 500`, raised inside the `try` block. -/
  | replicationUnmet
  deriving Repr, DecidableEq

inductive StoreResult where
  /-- a signed `StoreEvent` is returned; its `chunks` field is recorded. -/
  | event (chunks : List ChunkEvent)
  /-- validation mode with no successful store: the function returns `None`. -/
  | returnedNone
  /-- an exception propagates. -/
  | error (e : StoreError)
  deriving Repr, DecidableEq

structure StoreOutcome where
  result : StoreResult
  miners_processes : List MinerProcess
  stored_miners : List (ModuleInfo × String)
  /-- the `(miner, chunk_uuid)` pairs for which `remove_chunk_request` was
  attempted (`remove_stored_chunks`, store_api.py lines 184-197). -/
  removes_attempted : List (ModuleInfo × String)
  deriving Repr, DecidableEq

/-- Builds `final_chunks` (store_api.py lines 219-231) from the stored
chunks, drawing each `sub_chunk_start` from the oracle clamped to
`randint(0, max(0, len - 50))`'s support. -/
def buildFinalChunks (draw : Nat → Nat)
    (stored : List (String × Nat × List Nat)) : List ChunkEvent :=
  stored.enum.map (fun p =>
    mkChunkEvent p.2.1 p.2.2.1 p.2.2.2
      (min (draw p.1) (p.2.2.2.length - MAX_ENCODED_RANGE)))

/-- Embeds `store_new_file` (store_api.py lines 115-255).  The `except
Exception` handler runs `remove_stored_chunks` — a remove RPC for every
pair in `stored_miners` — before re-raising; the only in-`try` exception
of the embedded control flow is the unmet replication quota.  The 400
refusal fires before the `try`, when nothing has been stored. -/
def store_new_file (answer : ModuleInfo → Nat → Option String)
    (orders : Nat → List ModuleInfo) (draw : Nat → Nat)
    (file_bytes : List Nat) (miners : List ModuleInfo)
    (validating : Bool) : StoreOutcome :=
  if ¬validating ∧ miners.length < MIN_MINERS_FOR_FILE then
    ⟨.error .notEnoughMiners, [], [], []⟩
  else if validating then
    let st := miners.foldl
      (fun s miner => (handle_store_request answer miner file_bytes 0 s).1)
      ⟨[], [], []⟩
    if st.stored_chunks.isEmpty then
      ⟨.returnedNone, st.miners_processes, st.stored_miners, []⟩
    else
      ⟨.event (buildFinalChunks draw st.stored_chunks),
        st.miners_processes, st.stored_miners, []⟩
  else
    let chunks := splitChunks file_bytes (min miners.length MAX_MINERS_FOR_FILE)
    let st := chunks.enum.foldl
      (fun s p => store_chunk_with_redundancy answer p.2 p.1 (orders p.1) 0 s)
      ⟨[], [], []⟩
    if st.stored_chunks.length ≠ chunks.length * MIN_REPLICATION_FOR_FILE then
      ⟨.error .replicationUnmet, st.miners_processes, st.stored_miners,
        st.stored_miners⟩
    else
      ⟨.event (buildFinalChunks draw st.stored_chunks),
        st.miners_processes, st.stored_miners, []⟩

/-- Miner-response oracle for the rollback witness: only miner `m1`
accepts, and only for chunk index 0. -/
def answerOnlyM1 (m : ModuleInfo) (chunk_index : Nat) : Option String :=
  if m.ss58_address == "m1" && chunk_index == 0 then some "c0" else none

end SmartDrive

namespace SmartDriveClaims

open SmartDrive

/-- C10 counterexample: the claim asserts that for `stake ≥ 1` the capacity
*equals* `min(2 GiB, 50 MiB + (stake-1)·0.1 MiB)` in exact arithmetic.  At
`stake = 2` the exact value is `52533657.6`, while the code truncates to the
integer `52533657`, so the equality fails. -/
theorem storage_capacity_exact_value_cex :
    (calculate_storage_capacity 2 : ℚ) ≠
      min (2 * 1024 * 1024 * 1024) (50 * 1024 * 1024 + (2 - 1) * ((1 / 10) * 1024 * 1024)) := by
  norm_num [calculate_storage_capacity, INITIAL_STORAGE, MAXIMUM_STORAGE,
    ADDITIONAL_STORAGE_PER_COMAI, MINIMUM_STAKE]

/-- C10 (amended): `calculate_storage_capacity stake` is `0` for `stake < 1`
and otherwise the *floor* of `min(2 GiB, 50 MiB + (stake-1)·0.1 MiB)`; the
result never exceeds 2 GiB and is non-decreasing in the stake. -/
theorem storage_capacity_props :
    (∀ stake : ℚ, stake < 1 → calculate_storage_capacity stake = 0) ∧
    (∀ stake : ℚ, 1 ≤ stake →
      calculate_storage_capacity stake =
        ⌊min (2 * 1024 * 1024 * 1024 : ℚ)
            (50 * 1024 * 1024 + (stake - 1) * ((1 / 10) * 1024 * 1024))⌋) ∧
    (∀ stake : ℚ, calculate_storage_capacity stake ≤ 2 * 1024 * 1024 * 1024) ∧
    (∀ s t : ℚ, s ≤ t → calculate_storage_capacity s ≤ calculate_storage_capacity t) := by
  have hval : ∀ stake : ℚ, 1 ≤ stake →
      calculate_storage_capacity stake =
        ⌊min (2 * 1024 * 1024 * 1024 : ℚ)
            (50 * 1024 * 1024 + (stake - 1) * ((1 / 10) * 1024 * 1024))⌋ := by
    intro stake h
    unfold calculate_storage_capacity
    rw [if_neg (by simp [MINIMUM_STAKE]; linarith)]
    simp only [MINIMUM_STAKE, INITIAL_STORAGE, ADDITIONAL_STORAGE_PER_COMAI, MAXIMUM_STORAGE]
    rcases lt_or_eq_of_le h with h1 | h1
    · rw [if_pos (by linarith), min_comm]
    · rw [if_neg (by rw [← h1]; simp), ← h1, min_comm]
      norm_num
  refine ⟨?_, hval, ?_, ?_⟩
  · intro stake h
    unfold calculate_storage_capacity
    rw [if_pos (by simpa [MINIMUM_STAKE] using h)]
  · intro stake
    by_cases h : stake < 1
    · unfold calculate_storage_capacity
      rw [if_pos (by simpa [MINIMUM_STAKE] using h)]
      positivity
    · rw [hval stake (le_of_not_lt h)]
      have : min (2 * 1024 * 1024 * 1024 : ℚ)
          (50 * 1024 * 1024 + (stake - 1) * ((1 / 10) * 1024 * 1024)) ≤
          (2 * 1024 * 1024 * 1024 : ℚ) := min_le_left _ _
      calc ⌊min (2 * 1024 * 1024 * 1024 : ℚ)
            (50 * 1024 * 1024 + (stake - 1) * ((1 / 10) * 1024 * 1024))⌋
          ≤ ⌊(2 * 1024 * 1024 * 1024 : ℚ)⌋ := Int.floor_le_floor this
        _ = 2 * 1024 * 1024 * 1024 := by norm_num
  · intro s t hst
    by_cases hs : s < 1
    · unfold calculate_storage_capacity
      rw [if_pos (by simpa [MINIMUM_STAKE] using hs)]
      by_cases ht : t < 1
      · rw [if_pos (by simpa [MINIMUM_STAKE] using ht)]
      · rw [if_neg (by simpa [MINIMUM_STAKE] using ht)]
        simp only [MINIMUM_STAKE, INITIAL_STORAGE, ADDITIONAL_STORAGE_PER_COMAI,
          MAXIMUM_STORAGE]
        have h1 : (0 : ℚ) ≤ t - 1 := by simp at ht; linarith
        split <;>
        · apply Int.le_floor.mpr
          push_cast
          rw [le_min_iff]
          constructor <;> nlinarith
    · have hs' : (1 : ℚ) ≤ s := le_of_not_lt hs
      have ht' : (1 : ℚ) ≤ t := le_trans hs' hst
      rw [hval s hs', hval t ht']
      apply Int.floor_le_floor
      apply min_le_min le_rfl
      nlinarith

/-- C10 witness: instantiates `storage_capacity_props` at concrete stakes. -/
theorem storage_capacity_props_witness :
    calculate_storage_capacity (1/2) = 0 ∧
    calculate_storage_capacity 2 =
      ⌊min (2 * 1024 * 1024 * 1024 : ℚ)
          (50 * 1024 * 1024 + ((2 : ℚ) - 1) * ((1 / 10) * 1024 * 1024))⌋ ∧
    calculate_storage_capacity 3 ≤ 2 * 1024 * 1024 * 1024 ∧
    calculate_storage_capacity 2 ≤ calculate_storage_capacity 3 :=
  ⟨storage_capacity_props.1 (1/2) (by norm_num),
   storage_capacity_props.2.1 2 (by norm_num),
   storage_capacity_props.2.2.1 3,
   storage_capacity_props.2.2.2 2 3 (by norm_num)⟩

/-- C3 counterexample: with a stake tie between addresses `"a"` (self) and
`"b"` (active), the code elects `"b"` (first maximal element of the list
`truthful_validators`, self appended last), while the claim's election —
stake `≥ S` filter over `T`, ties to the lexicographically smallest
address — elects `"a"`. -/
theorem elect_proposer_spec_mismatch_cex :
    electProposer 10 [⟨"b", 100⟩] [⟨"a", 100⟩, ⟨"b", 100⟩] "a" =
      some ⟨"b", 100⟩ ∧
    electProposerSpec 10 [⟨"b", 100⟩, ⟨"a", 100⟩] = some ⟨"a", 100⟩ ∧
    (⟨"b", 100⟩ : ModuleInfo) ≠ ⟨"a", 100⟩ := by decide

/-- C3 (amended): the election filters the active validators by stake
strictly greater than `TRUTHFUL_STAKE_AMOUNT`, appends the local validator
when the oracle lists it with stake at least the threshold, falls back to
the oracle's full validator list (not to `T`) when that set is empty, and
returns the first listed member with maximal stake; in particular the
elected proposer always carries a maximal stake within that candidate
pool. -/
theorem elect_proposer_max_stake (S : Nat) (active all : List ModuleInfo)
    (self_address : String) (h : electionPool S active all self_address ≠ []) :
    ∃ p, electProposer S active all self_address = some p ∧
      p ∈ electionPool S active all self_address ∧
      ∀ v ∈ electionPool S active all self_address, v.stake ≤ p.stake :=
  pythonMaxBy_spec (fun v => v.stake) _ h

/-- C3 witness: instantiates `elect_proposer_max_stake` on a concrete
snapshot. -/
theorem elect_proposer_max_stake_witness :
    (electionPool 10 [⟨"b", 100⟩] [⟨"a", 100⟩, ⟨"b", 100⟩] "a" ≠ []) ∧
    (∃ p, electProposer 10 [⟨"b", 100⟩] [⟨"a", 100⟩, ⟨"b", 100⟩] "a" = some p ∧
      p ∈ electionPool 10 [⟨"b", 100⟩] [⟨"a", 100⟩, ⟨"b", 100⟩] "a" ∧
      ∀ v ∈ electionPool 10 [⟨"b", 100⟩] [⟨"a", 100⟩, ⟨"b", 100⟩] "a",
        v.stake ≤ p.stake) :=
  ⟨by decide, elect_proposer_max_stake 10 _ _ "a" (by decide)⟩

/-- C4 counterexample: the same oracle snapshot (the active set enumerated
in two different orders — the two lists are permutations) yields two
different proposers under a stake tie, so the two-run determinism claim
fails. -/
theorem elect_proposer_order_dependent_cex :
    ([⟨"a", 100⟩, ⟨"b", 100⟩] : List ModuleInfo).Perm [⟨"b", 100⟩, ⟨"a", 100⟩] ∧
    electProposer 10 [⟨"a", 100⟩, ⟨"b", 100⟩]
      [⟨"a", 100⟩, ⟨"b", 100⟩, ⟨"c", 5⟩] "c" = some ⟨"a", 100⟩ ∧
    electProposer 10 [⟨"b", 100⟩, ⟨"a", 100⟩]
      [⟨"a", 100⟩, ⟨"b", 100⟩, ⟨"c", 5⟩] "c" = some ⟨"b", 100⟩ ∧
    (⟨"a", 100⟩ : ModuleInfo) ≠ ⟨"b", 100⟩ := by decide

/-- C4 (amended): two computations of the proposer from the same oracle
snapshot (the active and full validator lists given in any enumeration
order) return the same proposer, provided module addresses are unique in
the oracle list and no two members of the candidate pool share a stake
value. -/
theorem elect_proposer_perm_invariant (S : Nat)
    (active₁ active₂ all₁ all₂ : List ModuleInfo) (self_address : String)
    (hact : active₁.Perm active₂) (hall : all₁.Perm all₂)
    (huniq : ∀ u ∈ all₁, ∀ v ∈ all₁, u.ss58_address = v.ss58_address → u = v)
    (hstake : ∀ u ∈ electionPool S active₁ all₁ self_address,
      ∀ v ∈ electionPool S active₁ all₁ self_address, u.stake = v.stake → u = v) :
    electProposer S active₁ all₁ self_address =
      electProposer S active₂ all₂ self_address := by
  have hperm := electionPool_perm S active₁ active₂ all₁ all₂ self_address hact hall huniq
  by_cases hnil : electionPool S active₁ all₁ self_address = []
  · have hnil₂ : electionPool S active₂ all₂ self_address = [] := by
      rw [hnil] at hperm
      exact (List.perm_nil.mp hperm.symm)
    simp [electProposer, hnil, hnil₂, pythonMaxBy]
  · have hnil₂ : electionPool S active₂ all₂ self_address ≠ [] := by
      intro h
      rw [h] at hperm
      exact hnil (List.perm_nil.mp hperm)
    obtain ⟨p₁, he₁, hm₁, hmax₁⟩ := pythonMaxBy_spec (fun v => v.stake) _ hnil
    obtain ⟨p₂, he₂, hm₂, hmax₂⟩ := pythonMaxBy_spec (fun v => v.stake) _ hnil₂
    have hm₂' : p₂ ∈ electionPool S active₁ all₁ self_address := hperm.mem_iff.mpr hm₂
    have h12 : p₁.stake ≤ p₂.stake := hmax₂ p₁ (hperm.mem_iff.mp hm₁)
    have h21 : p₂.stake ≤ p₁.stake := hmax₁ p₂ hm₂'
    have hp : p₁ = p₂ := hstake p₁ hm₁ p₂ hm₂' (le_antisymm h12 h21)
    show pythonMaxBy (fun v => v.stake) _ = pythonMaxBy (fun v => v.stake) _
    rw [he₁, he₂, hp]

/-- C4 witness: instantiates `elect_proposer_perm_invariant` on a concrete
snapshot with distinct stakes enumerated in two different orders. -/
theorem elect_proposer_perm_invariant_witness :
    electProposer 10 [⟨"a", 100⟩, ⟨"b", 90⟩]
      [⟨"a", 100⟩, ⟨"b", 90⟩, ⟨"c", 5⟩] "c" =
    electProposer 10 [⟨"b", 90⟩, ⟨"a", 100⟩]
      [⟨"b", 90⟩, ⟨"a", 100⟩, ⟨"c", 5⟩] "c" :=
  elect_proposer_perm_invariant 10 _ _ _ _ "c"
    (by decide) (by decide) (by decide) (by decide)

/-- C5 counterexample: a 1-byte file stored with 2 miners.  The code's
`chunk_size = max(1, len // num_chunks)` rounds the shard size up to one
byte, and the `remainder` fix-up then re-appends the file's single byte to
the last shard, so the two shards are `[7]` and `[7]` — not the claimed
`⌊1/2⌋ = 0`-byte shards — and their concatenation duplicates the byte
instead of reproducing the file. -/
theorem split_chunks_duplicate_cex :
    MIN_MINERS_FOR_FILE ≤ 2 ∧
    splitChunks [7] (min 2 MAX_MINERS_FOR_FILE) = [[7], [7]] ∧
    (splitChunks [7] (min 2 MAX_MINERS_FOR_FILE)).flatten ≠ [7] := by decide

/-- C5 (amended): when additionally `num_chunks ≤ len(file_bytes)` (the file
has at least one byte per shard), `store_new_file` splits the file into
`num_chunks = min(len(miners), 100)` contiguous shards, the first
`num_chunks - 1` of exactly `⌊len/num_chunks⌋` bytes and the last of
`⌊len/num_chunks⌋ + (len mod num_chunks)` bytes, and the concatenation of
the shards in index order equals `file_bytes`. -/
theorem split_chunks_reassemble (file : List Nat) (m : Nat)
    (hm : MIN_MINERS_FOR_FILE ≤ m)
    (hlen : min m MAX_MINERS_FOR_FILE ≤ file.length) :
    (splitChunks file (min m MAX_MINERS_FOR_FILE)).length =
      min m MAX_MINERS_FOR_FILE ∧
    (∀ i, i + 1 < min m MAX_MINERS_FOR_FILE →
      ((splitChunks file (min m MAX_MINERS_FOR_FILE)).getD i []).length =
        file.length / min m MAX_MINERS_FOR_FILE) ∧
    ((splitChunks file (min m MAX_MINERS_FOR_FILE)).getLastD []).length =
      file.length / min m MAX_MINERS_FOR_FILE +
        file.length % min m MAX_MINERS_FOR_FILE ∧
    (splitChunks file (min m MAX_MINERS_FOR_FILE)).flatten = file := by
  have hm2 : (2 : Nat) ≤ m := by simpa [MIN_MINERS_FOR_FILE] using hm
  have hn : 0 < min m MAX_MINERS_FOR_FILE := by
    simp only [MAX_MINERS_FOR_FILE]
    omega
  rw [splitChunks_eq file (min m MAX_MINERS_FOR_FILE) hn hlen]
  have hdm : min m MAX_MINERS_FOR_FILE * (file.length / min m MAX_MINERS_FOR_FILE) +
      file.length % min m MAX_MINERS_FOR_FILE = file.length :=
    Nat.div_add_mod file.length (min m MAX_MINERS_FOR_FILE)
  have hmul : (min m MAX_MINERS_FOR_FILE - 1) * (file.length / min m MAX_MINERS_FOR_FILE) +
      file.length / min m MAX_MINERS_FOR_FILE =
      min m MAX_MINERS_FOR_FILE * (file.length / min m MAX_MINERS_FOR_FILE) := by
    rcases Nat.exists_eq_add_of_lt hn with ⟨k, hk⟩
    rw [hk]
    simp [Nat.succ_mul]
  refine ⟨?_, ?_, ?_, ?_⟩
  · simp only [List.length_append, List.length_map, List.length_range,
      List.length_cons, List.length_nil]
    omega
  · intro i hi
    have hiA : i < ((List.range (min m MAX_MINERS_FOR_FILE - 1)).map
        (fun i => (file.drop (i * (file.length / min m MAX_MINERS_FOR_FILE))).take
          (file.length / min m MAX_MINERS_FOR_FILE))).length := by
      simp only [List.length_map, List.length_range]
      omega
    rw [List.getD_eq_getElem?_getD, List.getElem?_append_left hiA]
    simp only [List.getElem?_map, List.getElem?_range (by
      simp only [List.length_map, List.length_range] at hiA
      exact hiA), Option.map_some', Option.getD_some]
    have hle : (i + 1) * (file.length / min m MAX_MINERS_FOR_FILE) ≤
        (min m MAX_MINERS_FOR_FILE - 1) * (file.length / min m MAX_MINERS_FOR_FILE) :=
      Nat.mul_le_mul_right _ (by omega)
    rw [Nat.succ_mul] at hle
    simp only [List.length_take, List.length_drop]
    omega
  · rw [List.getLastD_eq_getLast?, List.getLast?_concat]
    simp only [Option.getD_some, List.length_drop]
    have h1 := hdm
    rw [← hmul] at h1
    generalize (min m MAX_MINERS_FOR_FILE - 1) *
      (file.length / min m MAX_MINERS_FOR_FILE) = q at h1 ⊢
    generalize file.length / min m MAX_MINERS_FOR_FILE = cs at h1 ⊢
    generalize file.length % min m MAX_MINERS_FOR_FILE = r at h1 ⊢
    omega
  · rw [List.flatten_append, slices_flatten]
    simp only [List.flatten_cons, List.flatten_nil, List.append_nil]
    exact List.take_append_drop _ file

/-- C5 witness: a 5-byte file with 2 miners splits into `[[1,2],[3,4,5]]`
and reassembles. -/
theorem split_chunks_reassemble_witness :
    (MIN_MINERS_FOR_FILE ≤ 2 ∧ min 2 MAX_MINERS_FOR_FILE ≤ ([1, 2, 3, 4, 5] : List Nat).length) ∧
    ((splitChunks [1, 2, 3, 4, 5] (min 2 MAX_MINERS_FOR_FILE)).length =
        min 2 MAX_MINERS_FOR_FILE ∧
      (∀ i, i + 1 < min 2 MAX_MINERS_FOR_FILE →
        ((splitChunks [1, 2, 3, 4, 5] (min 2 MAX_MINERS_FOR_FILE)).getD i []).length =
          ([1, 2, 3, 4, 5] : List Nat).length / min 2 MAX_MINERS_FOR_FILE) ∧
      ((splitChunks [1, 2, 3, 4, 5] (min 2 MAX_MINERS_FOR_FILE)).getLastD []).length =
        ([1, 2, 3, 4, 5] : List Nat).length / min 2 MAX_MINERS_FOR_FILE +
          ([1, 2, 3, 4, 5] : List Nat).length % min 2 MAX_MINERS_FOR_FILE ∧
      (splitChunks [1, 2, 3, 4, 5] (min 2 MAX_MINERS_FOR_FILE)).flatten = [1, 2, 3, 4, 5]) :=
  ⟨⟨by decide, by decide⟩,
   split_chunks_reassemble [1, 2, 3, 4, 5] 2 (by decide) (by decide)⟩

/-- C8: for every shard and every admissible random draw of
`sub_chunk_start` (i.e. `start ≤ max(0, len(shard) - 50)`, which in `Nat`
is truncated subtraction), the produced `ChunkEvent` has
`sub_chunk_end = min(start + 50, len)`, window length at most 50,
`sub_chunk_end ≤ len(shard)`, and `sub_chunk_encoded` equal to the hex of
the shard bytes over `[start, end)`. -/
theorem audit_window_bounds (chunk_uuid : String) (chunk_index : Nat)
    (file : List Nat) (start : Nat) (_hstart : start ≤ file.length - MAX_ENCODED_RANGE) :
    let c := mkChunkEvent chunk_uuid chunk_index file start
    c.sub_chunk_end - c.sub_chunk_start ≤ 50 ∧
    c.sub_chunk_end ≤ file.length ∧
    c.sub_chunk_start = start ∧
    c.sub_chunk_end = min (start + 50) file.length ∧
    c.sub_chunk_encoded =
      bytesHex ((file.drop c.sub_chunk_start).take (c.sub_chunk_end - c.sub_chunk_start)) := by
  refine ⟨?_, ?_, rfl, rfl, rfl⟩
  · simp only [mkChunkEvent, MAX_ENCODED_RANGE]
    omega
  · simp only [mkChunkEvent, MAX_ENCODED_RANGE]
    omega

/-- C8 witness: a 60-byte shard with draw `start = 7`. -/
theorem audit_window_bounds_witness :
    (7 ≤ (List.replicate 60 0).length - MAX_ENCODED_RANGE) ∧
    ((mkChunkEvent "u" 0 (List.replicate 60 0) 7).sub_chunk_end -
      (mkChunkEvent "u" 0 (List.replicate 60 0) 7).sub_chunk_start ≤ 50 ∧
     (mkChunkEvent "u" 0 (List.replicate 60 0) 7).sub_chunk_end ≤
      (List.replicate 60 0).length) :=
  ⟨by decide,
   ⟨(audit_window_bounds "u" 0 (List.replicate 60 0) 7 (by decide)).1,
    (audit_window_bounds "u" 0 (List.replicate 60 0) 7 (by decide)).2.1⟩⟩

/-- C1 counterexample: a received block containing one event whose
validator signature does not verify.  Contrary to the claim, the ingest
code does not discard the block: it applies the surviving event and
persists the block with that event — only the badly-signed event is
dropped. -/
theorem block_ingest_lenient_apply_cex :
    eventSigOk concatSigOk evBadC1 = false ∧
    process_message_block concatSigOk encodeBlockConcat "B" "B|S" "S" blkMixed [] =
      .applied [evOkC1] ⟨2, [evOkC1], blkMixed.proposer_signature, "P"⟩ [] false ∧
    ([evOkC1] : List IngestEvent) ≠ [] := by decide

/-- C1 (amended): on ingest of a BLOCK frame, a failed envelope or proposer
signature discards the whole block; but an event whose validator or user
signature fails verification is silently dropped while the remaining
events are applied and the block is persisted with exactly the surviving
events — each of which passes both signature checks. -/
theorem block_ingest_filters_bad_events
    (verify : String → String → String → Bool)
    (encodeBlock : Nat → List IngestEvent → String)
    (body_encoded signature_hex sender : String) (block : BlockMsg)
    (mempool : List IngestEvent)
    (hEnv : verify body_encoded signature_hex sender = true)
    (hProp : verify (encodeBlock block.block_number block.events)
      block.proposer_signature block.proposer_ss58_address = true) :
    process_message_block verify encodeBlock body_encoded signature_hex sender
        block mempool =
      .applied (block.events.filter (eventSigOk verify))
        { block with events := block.events.filter (eventSigOk verify) }
        (remove_events (block.events.filter (eventSigOk verify)) mempool) false ∧
    ∀ e ∈ block.events.filter (eventSigOk verify), eventSigOk verify e = true := by
  constructor
  · simp [process_message_block, hEnv, hProp]
  · intro e he
    exact List.of_mem_filter he

/-- C1 witness: instantiates `block_ingest_filters_bad_events` on the
mixed block under the concrete signature facade. -/
theorem block_ingest_filters_bad_events_witness :
    process_message_block concatSigOk encodeBlockConcat "B" "B|S" "S" blkMixed [] =
      .applied (blkMixed.events.filter (eventSigOk concatSigOk))
        { blkMixed with events := blkMixed.events.filter (eventSigOk concatSigOk) }
        (remove_events (blkMixed.events.filter (eventSigOk concatSigOk)) []) false ∧
    ∀ e ∈ blkMixed.events.filter (eventSigOk concatSigOk),
      eventSigOk concatSigOk e = true :=
  block_ingest_filters_bad_events concatSigOk encodeBlockConcat "B" "B|S" "S"
    blkMixed [] (by decide) (by decide)

/-- C2: evaluation of the ingest path at the failing input — a well-signed
block numbered 5 arriving when the local tip is 1.  The code applies the
block's events and emits no `SYNC_REQUEST` (there is no block-number check
in `Client.process_message`), and the spec-modelled `append_block` of the
persistence layer rejects the block, so neither the claimed gap handling
nor the dense-sequence invariant is established by the ingest code. -/
theorem block_gap_applied_bug :
    process_message_block concatSigOk encodeBlockConcat "B" "B|S" "S" blkGap [] =
      .applied [evGap] ⟨5, [evGap], blkGap.proposer_signature, "P"⟩ [] false ∧
    blkGap.block_number ≠ 1 + 1 ∧
    create_block_spec 1 blkGap = none := by decide

/-- C7 counterexample: inserting the same event twice through the received
`EVENT` gossip path (`mempool.append`) yields two entries sharing one
uuid, refuting both the idempotence and the no-duplicate-uuid invariant. -/
theorem mempool_duplicate_uuid_cex :
    mempoolAppend (mempoolAppend [] evDup) evDup = [evDup, evDup] ∧
    (mempoolAppend (mempoolAppend [] evDup) evDup).length ≠ 1 ∧
    ((mempoolAppend (mempoolAppend [] evDup) evDup).filter
      (fun x => x.uuid == evDup.uuid)).length = 2 := by decide

/-- C7 (amended): the gossip-path mempool insert is an unconditional
append — every insert grows the mempool by exactly one entry, duplicates
included; uuid-based deduplication happens only when a block's events are
removed, after which no entry shares a uuid with any removed event. -/
theorem mempool_append_grows_and_remove_clears
    (m : List IngestEvent) (e : IngestEvent) (evs : List IngestEvent) :
    (mempoolAppend m e).length = m.length + 1 ∧
    ∀ x ∈ remove_events evs m, ∀ y ∈ evs, x.uuid ≠ y.uuid := by
  constructor
  · simp [mempoolAppend]
  · intro x hx y hy hxy
    have hmem := List.mem_filter.mp hx
    have hcontains := hmem.2
    rw [Bool.not_eq_eq_eq_not, Bool.not_true, List.contains_eq_any_beq] at hcontains
    have hnot : x.uuid ∉ evs.map (fun ev => ev.uuid) := by
      intro hin
      have : (evs.map (fun ev => ev.uuid)).any (x.uuid == ·) = true := by
        rw [List.any_eq_true]
        exact ⟨x.uuid, hin, by simp⟩
      rw [this] at hcontains
      exact Bool.noConfusion hcontains
    exact hnot (hxy ▸ List.mem_map_of_mem (fun ev => ev.uuid) hy)

/-- C7 witness: instantiates `mempool_append_grows_and_remove_clears` on
the duplicated-event mempool. -/
theorem mempool_append_grows_and_remove_clears_witness :
    (mempoolAppend [evDup] evDup).length = [evDup].length + 1 ∧
    ∀ x ∈ remove_events [evDup] [evDup], ∀ y ∈ [evDup], x.uuid ≠ y.uuid :=
  mempool_append_grows_and_remove_clears [evDup] evDup [evDup]

/-- C6: rollback completeness.  Whenever `store_new_file` propagates an
exception — including the replication-quota-unmet failure — a remove RPC
is attempted for every `(miner, chunk_uuid)` pair ever appended to
`stored_miners` (the state is append-only, so the final list is exactly
the pairs ever appended).  The pre-`try` 400 refusal appends nothing, so
the claim holds vacuously there. -/
theorem store_rollback_complete
    (answer : ModuleInfo → Nat → Option String) (orders : Nat → List ModuleInfo)
    (draw : Nat → Nat) (file_bytes : List Nat) (miners : List ModuleInfo)
    (validating : Bool) (e : StoreError)
    (herr : (store_new_file answer orders draw file_bytes miners validating).result
      = .error e) :
    ∀ p ∈ (store_new_file answer orders draw file_bytes miners validating).stored_miners,
      p ∈ (store_new_file answer orders draw file_bytes miners validating).removes_attempted := by
  intro p hp
  by_cases h1 : ¬validating ∧ miners.length < MIN_MINERS_FOR_FILE
  · simp only [store_new_file, if_pos h1] at hp
    exact absurd hp (List.not_mem_nil p)
  · by_cases h2 : validating
    · exfalso
      simp only [store_new_file, if_neg h1, if_pos h2] at herr
      split at herr <;> simp at herr
    · simp only [store_new_file, if_neg h1, if_neg h2] at hp herr ⊢
      split at herr
      · rename_i hcond
        rw [if_pos hcond] at hp ⊢
        exact hp
      · simp at herr

/-- C6 witness: two miners, a 2-byte file, and an oracle on which only
miner `m1` accepts chunk 0 — the quota is unmet, the error propagates, and
the single placed chunk is removed. -/
theorem store_rollback_complete_witness :
    (store_new_file answerOnlyM1 (fun _ => [⟨"m1", 1⟩, ⟨"m2", 1⟩]) (fun _ => 0)
        [1, 2] [⟨"m1", 1⟩, ⟨"m2", 1⟩] false).result = .error .replicationUnmet ∧
    ∀ p ∈ (store_new_file answerOnlyM1 (fun _ => [⟨"m1", 1⟩, ⟨"m2", 1⟩]) (fun _ => 0)
        [1, 2] [⟨"m1", 1⟩, ⟨"m2", 1⟩] false).stored_miners,
      p ∈ (store_new_file answerOnlyM1 (fun _ => [⟨"m1", 1⟩, ⟨"m2", 1⟩]) (fun _ => 0)
        [1, 2] [⟨"m1", 1⟩, ⟨"m2", 1⟩] false).removes_attempted :=
  ⟨by decide,
   store_rollback_complete answerOnlyM1 (fun _ => [⟨"m1", 1⟩, ⟨"m2", 1⟩]) (fun _ => 0)
     [1, 2] [⟨"m1", 1⟩, ⟨"m2", 1⟩] false .replicationUnmet (by decide)⟩

/-- C9 counterexample: a POST whose Content-Type contains
"application/octet-stream" but also contains "application/json" takes the
JSON branch of the middleware, so the signature is verified against the
parsed payload, not against the empty body: two such requests with
identical headers and different payloads yield different verified
bodies. -/
theorem octet_stream_json_ct_cex :
    containsSub "application/json; application/octet-stream"
      "application/octet-stream" = true ∧
    selectBody (List Nat) (fun bs => some bs) "POST"
      (some "application/json; application/octet-stream") [] [1] ≠ .empty ∧
    selectBody (List Nat) (fun bs => some bs) "POST"
      (some "application/json; application/octet-stream") [] [1] ≠
    selectBody (List Nat) (fun bs => some bs) "POST"
      (some "application/json; application/octet-stream") [] [2] := by decide

/-- C9 (amended): for every POST whose Content-Type contains
"application/octet-stream" and does not contain "application/json", the
middleware verifies `X-Signature` against the empty body `{}` rather than
the request payload: the verified body is `empty` for every payload, so
two such requests with identical headers but different payloads produce
the same verified body — and any signature valid over the empty body
passes regardless of payload. -/
theorem octet_stream_body_empty (α : Type) (jsonParse : List Nat → Option α)
    (ct : String) (query_params : List (String × String))
    (payload₁ payload₂ : List Nat)
    (hoct : containsSub ct "application/octet-stream" = true)
    (hjson : containsSub ct "application/json" = false) :
    selectBody α jsonParse "POST" (some ct) query_params payload₁ = .empty ∧
    selectBody α jsonParse "POST" (some ct) query_params payload₁ =
      selectBody α jsonParse "POST" (some ct) query_params payload₂ := by
  constructor <;> simp [selectBody, hoct, hjson]

/-- C9 witness: instantiates `octet_stream_body_empty` at the plain
octet-stream Content-Type with two different payloads. -/
theorem octet_stream_body_empty_witness :
    (containsSub "application/octet-stream" "application/octet-stream" = true ∧
     containsSub "application/octet-stream" "application/json" = false) ∧
    (selectBody (List Nat) (fun bs => some bs) "POST"
        (some "application/octet-stream") [] [1] = .empty ∧
     selectBody (List Nat) (fun bs => some bs) "POST"
        (some "application/octet-stream") [] [1] =
      selectBody (List Nat) (fun bs => some bs) "POST"
        (some "application/octet-stream") [] [2]) :=
  ⟨⟨by decide, by decide⟩,
   octet_stream_body_empty (List Nat) (fun bs => some bs)
     "application/octet-stream" [] [1] [2] (by decide) (by decide)⟩

end SmartDriveClaims
